import Mathlib

/-!
A shallow embedding of `house_name_extract.py` (OSM house-name extraction).

The document model follows the source: a map document holds nodes
(id, latitude, longitude) and tagged entities (ways), each with an ordered
list of node references and an ordered list of key/value tag pairs.
Python values appearing inside output records are strings or integers;
Python's comparison of a string with an integer raises TypeError, which the
embedding models by a three-way comparison returning an Option and a sort
running in that partiality.  The network fetch, XML parsing, grid projection
and polygon centroid are external collaborators; the projection is a
function parameter and the centroid is modelled from the spec.
-/

/-- Projected coordinate pair (grid.E, grid.N), integers as in the source. -/
abbrev Coords := Int × Int

/-- A map node: id attribute plus latitude and longitude (floats in the
source, rationals here). -/
structure Node where
  id : String
  lat : Rat
  lon : Rat
  deriving DecidableEq

/-- A tagged entity (a way): ordered nd references and ordered tag pairs,
as they appear in the XML. -/
structure Entity where
  nodeRefs : List String
  tags : List (String × String)
  deriving DecidableEq

/-- The parsed document: its nodes and its tagged entities, in document
order. -/
structure Document where
  nodes : List Node
  entities : List Entity

/-- A Python value occurring in an output record: a string tag value or an
integer coordinate. -/
inductive PyVal where
  | str (s : String)
  | int (n : Int)
  deriving DecidableEq, Repr

/-- An output record: a Python tuple of strings and integers. -/
abbrev Record := List PyVal

/-- The Python exceptions the extraction can raise. -/
inductive PyErr where
  | typeError
  | geometryError
  deriving DecidableEq, Repr

/-- Three-way comparison on a linearly ordered type (Python `<`, `==`). -/
def cmp3 {α : Type} [LinearOrder α] (a b : α) : Ordering :=
  if a < b then .lt else if a = b then .eq else .gt

/-- Lexicographic comparison of two character lists by code point, the way
Python compares strings. -/
def cmpCharList : List Char → List Char → Ordering
  | [], [] => .eq
  | [], _ :: _ => .lt
  | _ :: _, [] => .gt
  | c :: cs, d :: ds =>
    match cmp3 c d with
    | .eq => cmpCharList cs ds
    | o => o

/-- Python string comparison, on the underlying character lists. -/
def cmpStr (a b : String) : Ordering := cmpCharList a.data b.data

/-- Python comparison of two values: same-type values compare normally,
a string against an integer raises TypeError (= none). -/
def pyCompareVal : PyVal → PyVal → Option Ordering
  | .str a, .str b => some (cmpStr a b)
  | .int a, .int b => some (cmp3 a b)
  | _, _ => none

/-- Python tuple comparison: scan for the first position where elements are
not equal (Python `==` never raises between str and int) and compare there;
a strict prefix is smaller. -/
def pyCompareRec : Record → Record → Option Ordering
  | [], [] => some .eq
  | [], _ :: _ => some .lt
  | _ :: _, [] => some .gt
  | a :: xs, b :: ys => if a = b then pyCompareRec xs ys else pyCompareVal a b

/-- Insert a record into a sorted list, comparing as Python does; none when
a comparison raises TypeError. -/
def pyInsert (x : Record) : List Record → Option (List Record)
  | [] => some [x]
  | y :: ys =>
    match pyCompareRec x y with
    | none => none
    | some .gt => (pyInsert x ys).map (y :: ·)
    | some _ => some (x :: y :: ys)

/-- Comparison sort of records (Python `list.sort`); none when some needed
comparison raises TypeError. -/
def pySort : List Record → Option (List Record)
  | [] => some []
  | x :: xs => (pySort xs).bind (pyInsert x)

/-- The source's `_clean`: `list(set(seq))` then `.sort()` — remove
duplicates, then sort; sorting may raise TypeError. -/
def _clean (l : List Record) : Except PyErr (List Record) :=
  match pySort l.dedup with
  | none => .error .typeError
  | some m => .ok m

/-- The source's `all_corners` dictionary as built by `_get_corners`: every
node id mapped to the projection of its (lat, lon); `proj` stands for the
external `latlong2grid` primitive. -/
def all_corners (doc : Document) (proj : Rat → Rat → Coords) : List (String × Coords) :=
  doc.nodes.map (fun n => (n.id, proj n.lat n.lon))

/-- Python `dict.get`: the last binding of a key wins, a missing key gives
none. -/
def pyGet (d : List (String × Coords)) (k : String) : Option Coords :=
  List.lookup k d.reverse

/-- Twice the signed area of the polygon on `ps` (shoelace sum over the
cyclically closed edge list). -/
def signedArea2 (ps : List Coords) : Int :=
  ((ps.zip (ps.rotate 1)).map (fun e => e.1.1 * e.2.2 - e.2.1 * e.1.2)).sum

/-- Modelled from the spec: the external polygon-centroid primitive
(`Polygon(corners).centroid` of shapely, out of scope of the repository).
A missing corner (Python None) in the argument raises TypeError; a
degenerate (zero-area) polygon raises a geometry error; otherwise the
result is the exact centroid, returned as two numerator/denominator pairs
over the integers. -/
def centroid (cs : List (Option Coords)) : Except PyErr ((Int × Int) × (Int × Int)) :=
  if cs.any Option.isNone then .error .typeError
  else
    let ps := cs.filterMap id
    let es := ps.zip (ps.rotate 1)
    let a2 := signedArea2 ps
    if a2 = 0 then .error .geometryError
    else
      let sx := (es.map (fun e => (e.1.1 + e.2.1) * (e.1.1 * e.2.2 - e.2.1 * e.1.2))).sum
      let sy := (es.map (fun e => (e.1.2 + e.2.2) * (e.1.1 * e.2.2 - e.2.1 * e.1.2))).sum
      .ok ((sx, 3 * a2), (sy, 3 * a2))

/-- Python `int()` applied to an exact quotient: truncation toward zero. -/
def pyIntOfQuot (num den : Int) : Int := Int.tdiv num den

/-- The auxiliary section of a house record: the value of every tag of the
entity whose key is among the requested keys, in the order the tags sit on
the entity in the document. -/
def auxInfo (keys : List String) (house : Entity) : Record :=
  (house.tags.filter (fun kv => decide (kv.1 ∈ keys))).map (fun kv => PyVal.str kv.2)

/-- The `corners` list of the source loop: `all_corners.get(ref)` for every
nd reference of the entity, unresolvable references giving Python None. -/
def corner_list (corners : List (String × Coords)) (house : Entity) : List (Option Coords) :=
  house.nodeRefs.map (fun r => pyGet corners r)

/-- The body of the `extract_house_info` loop for one `addr:housename` tag
with value `name` on entity `house`: start with the name, append the value
of every tag whose key is in `keys` (in the order the tags sit on the
entity), collect `all_corners.get(ref)` for every nd reference, and when at
least three references exist append the truncated centroid coordinates. -/
def houseRecord (corners : List (String × Coords)) (keys : List String)
    (house : Entity) (name : String) : Except PyErr Record :=
  let info : Record := PyVal.str name :: auxInfo keys house
  let cs : List (Option Coords) := corner_list corners house
  if 3 ≤ cs.length then
    match centroid cs with
    | .error e => .error e
    | .ok c => .ok (info ++ [PyVal.int (pyIntOfQuot c.1.1 c.1.2), PyVal.int (pyIntOfQuot c.2.1 c.2.2)])
  else .ok info

/-- Monadic map over a list in the Except monad, stopping at the first
raised exception (the Python loop aborts there). -/
def mapME {α β : Type} (f : α → Except PyErr β) : List α → Except PyErr (List β)
  | [] => .ok []
  | x :: xs =>
    match f x with
    | .error e => .error e
    | .ok y =>
      match mapME f xs with
      | .error e => .error e
      | .ok ys => .ok (y :: ys)

/-- The `house_list` accumulated by `extract_house_info` before `_clean`:
one record per `addr:housename` tag, in document order. -/
def house_records (doc : Document) (proj : Rat → Rat → Coords)
    (keys : List String) : Except PyErr (List Record) :=
  let corners := all_corners doc proj
  (mapME (fun e =>
      mapME (fun kv => houseRecord corners keys e kv.2)
        (e.tags.filter (fun kv => kv.1 == "addr:housename")))
    doc.entities).map List.flatten

/-- The source's `extract_house_info keys`: build all house records, then
`_clean` them. -/
def extract_house_info (doc : Document) (proj : Rat → Rat → Coords)
    (keys : List String) : Except PyErr (List Record) :=
  Except.bind (house_records doc proj keys) _clean

/-- The contribution of one entity to `get_previous_names`: for each of its
`old_name` tags, pair the old value with the value of the first
`addr:housename` tag on the same entity (the loop breaks there); an entity
without a current name contributes nothing. -/
def renamesOf (e : Entity) : List Record :=
  (e.tags.filter (fun kv => kv.1 == "old_name")).flatMap (fun kv =>
    match e.tags.find? (fun kv2 => kv2.1 == "addr:housename") with
    | some kv2 => [[PyVal.str kv.2, PyVal.str kv2.2]]
    | none => [])

/-- The source's `get_previous_names`: collect (old name, new name) pairs
over the whole document and `_clean` them. -/
def get_previous_names (doc : Document) : Except PyErr (List Record) :=
  _clean (doc.entities.flatMap renamesOf)


/-! ### Properties of the Python comparison -/

theorem cmp3_eq_lt {α : Type} [LinearOrder α] {a b : α} : cmp3 a b = .lt ↔ a < b := by
  unfold cmp3
  split_ifs with h1 h2
  · exact iff_of_true rfl h1
  · exact iff_of_false (by simp) h1
  · exact iff_of_false (by simp) h1

theorem cmp3_eq_eq {α : Type} [LinearOrder α] {a b : α} : cmp3 a b = .eq ↔ a = b := by
  unfold cmp3
  split_ifs with h1 h2
  · exact iff_of_false (by simp) (ne_of_lt h1)
  · exact iff_of_true rfl h2
  · exact iff_of_false (by simp) h2

theorem cmp3_eq_gt {α : Type} [LinearOrder α] {a b : α} : cmp3 a b = .gt ↔ b < a := by
  unfold cmp3
  split_ifs with h1 h2
  · exact iff_of_false (by simp) (fun h => lt_asymm h1 h)
  · exact iff_of_false (by simp) (by rw [h2]; exact lt_irrefl b)
  · exact iff_of_true rfl (lt_of_le_of_ne (not_lt.mp h1) (fun h => h2 h.symm))

theorem cmp3_gt_iff_lt {α : Type} [LinearOrder α] {a b : α} :
    cmp3 a b = .gt ↔ cmp3 b a = .lt := by
  rw [cmp3_eq_gt, cmp3_eq_lt]

theorem cmpCharList_refl (xs : List Char) : cmpCharList xs xs = .eq := by
  induction xs with
  | nil => rfl
  | cons c cs ih =>
    rw [cmpCharList, cmp3_eq_eq.mpr rfl]
    exact ih

theorem cmpCharList_eq_iff {xs ys : List Char} : cmpCharList xs ys = .eq ↔ xs = ys := by
  constructor
  · intro h
    induction xs generalizing ys with
    | nil =>
      cases ys with
      | nil => rfl
      | cons d ds => simp [cmpCharList] at h
    | cons c cs ih =>
      cases ys with
      | nil => simp [cmpCharList] at h
      | cons d ds =>
        rw [cmpCharList] at h
        cases h3 : cmp3 c d with
        | lt => rw [h3] at h; simp at h
        | eq => rw [h3] at h; rw [cmp3_eq_eq.mp h3, ih h]
        | gt => rw [h3] at h; simp at h
  · rintro rfl
    exact cmpCharList_refl xs

theorem cmpCharList_gt_iff_lt {xs ys : List Char} :
    cmpCharList xs ys = .gt ↔ cmpCharList ys xs = .lt := by
  induction xs generalizing ys with
  | nil => cases ys <;> simp [cmpCharList]
  | cons c cs ih =>
    cases ys with
    | nil => simp [cmpCharList]
    | cons d ds =>
      rw [cmpCharList, cmpCharList]
      cases h3 : cmp3 c d with
      | eq =>
        have h3x : cmp3 d c = Ordering.eq := cmp3_eq_eq.mpr (cmp3_eq_eq.mp h3).symm
        rw [h3x]
        exact ih
      | lt =>
        have h3x : cmp3 d c = Ordering.gt := cmp3_gt_iff_lt.mpr h3
        rw [h3x]
        simp
      | gt =>
        have h3x : cmp3 d c = Ordering.lt := cmp3_gt_iff_lt.mp h3
        rw [h3x]
        simp

theorem cmpCharList_lt_trans {xs ys zs : List Char} (h1 : cmpCharList xs ys = .lt)
    (h2 : cmpCharList ys zs = .lt) : cmpCharList xs zs = .lt := by
  induction xs generalizing ys zs with
  | nil =>
    cases ys with
    | nil => simp [cmpCharList] at h1
    | cons d ds =>
      cases zs with
      | nil => simp [cmpCharList] at h2
      | cons e es => simp [cmpCharList]
  | cons c cs ih =>
    cases ys with
    | nil => simp [cmpCharList] at h1
    | cons d ds =>
      cases zs with
      | nil => simp [cmpCharList] at h2
      | cons e es =>
        rw [cmpCharList] at h1 h2 ⊢
        cases h3 : cmp3 c d with
        | gt => rw [h3] at h1; simp at h1
        | eq =>
          rw [h3] at h1
          have hcd : c = d := cmp3_eq_eq.mp h3
          cases h4 : cmp3 d e with
          | gt => rw [h4] at h2; simp at h2
          | eq =>
            rw [h4] at h2
            have hce : cmp3 c e = Ordering.eq := by
              rw [cmp3_eq_eq, hcd, cmp3_eq_eq.mp h4]
            rw [hce]
            exact ih h1 h2
          | lt =>
            have hce : cmp3 c e = Ordering.lt := by
              rw [cmp3_eq_lt, hcd]
              exact cmp3_eq_lt.mp h4
            rw [hce]
        | lt =>
          cases h4 : cmp3 d e with
          | gt => rw [h4] at h2; simp at h2
          | eq =>
            have hce : cmp3 c e = Ordering.lt := by
              rw [cmp3_eq_lt, (cmp3_eq_eq.mp h4).symm]
              exact cmp3_eq_lt.mp h3
            rw [hce]
          | lt =>
            have hce : cmp3 c e = Ordering.lt := by
              rw [cmp3_eq_lt]
              exact lt_trans (cmp3_eq_lt.mp h3) (cmp3_eq_lt.mp h4)
            rw [hce]

theorem cmpStr_eq_iff {a b : String} : cmpStr a b = .eq ↔ a = b := by
  rw [cmpStr, cmpCharList_eq_iff]
  exact ⟨fun h => String.ext h, fun h => by rw [h]⟩

theorem cmpStr_gt_iff_lt {a b : String} : cmpStr a b = .gt ↔ cmpStr b a = .lt :=
  cmpCharList_gt_iff_lt

theorem cmpStr_lt_trans {a b c : String} (h1 : cmpStr a b = .lt)
    (h2 : cmpStr b c = .lt) : cmpStr a c = .lt :=
  cmpCharList_lt_trans h1 h2

theorem pyCompareVal_eq_some_eq {a b : PyVal} : pyCompareVal a b = some .eq ↔ a = b := by
  cases a <;> cases b <;> simp [pyCompareVal, cmp3_eq_eq, cmpStr_eq_iff]

theorem pyCompareVal_gt_iff_lt {a b : PyVal} :
    pyCompareVal a b = some .gt ↔ pyCompareVal b a = some .lt := by
  cases a <;> cases b <;> simp [pyCompareVal, cmp3_eq_gt, cmp3_eq_lt, cmpStr_gt_iff_lt]

theorem pyCompareVal_lt_trans {a b c : PyVal} (h1 : pyCompareVal a b = some .lt)
    (h2 : pyCompareVal b c = some .lt) : pyCompareVal a c = some .lt := by
  cases a <;> cases b <;> cases c <;> simp_all [pyCompareVal]
  · exact cmpStr_lt_trans h1 h2
  · rw [cmp3_eq_lt] at h1 h2
    exact cmp3_eq_lt.mpr (lt_trans h1 h2)

theorem pyCompareRec_refl (xs : Record) : pyCompareRec xs xs = some .eq := by
  induction xs with
  | nil => rfl
  | cons a xs ih => simp [pyCompareRec, ih]

theorem pyCompareRec_eq_some_eq {xs ys : Record} :
    pyCompareRec xs ys = some .eq ↔ xs = ys := by
  constructor
  · intro h
    induction xs generalizing ys with
    | nil =>
      cases ys with
      | nil => rfl
      | cons b ys => simp [pyCompareRec] at h
    | cons a xs ih =>
      cases ys with
      | nil => simp [pyCompareRec] at h
      | cons b ys =>
        by_cases hab : a = b
        · subst hab
          rw [pyCompareRec, if_pos rfl] at h
          rw [ih h]
        · rw [pyCompareRec, if_neg hab] at h
          exact absurd (pyCompareVal_eq_some_eq.mp h) hab
  · rintro rfl
    exact pyCompareRec_refl xs

theorem pyCompareRec_gt_iff_lt {xs ys : Record} :
    pyCompareRec xs ys = some .gt ↔ pyCompareRec ys xs = some .lt := by
  induction xs generalizing ys with
  | nil => cases ys <;> simp [pyCompareRec]
  | cons a xs ih =>
    cases ys with
    | nil => simp [pyCompareRec]
    | cons b ys =>
      by_cases hab : a = b
      · subst hab
        rw [pyCompareRec, if_pos rfl, pyCompareRec, if_pos rfl]
        exact ih
      · rw [pyCompareRec, if_neg hab, pyCompareRec, if_neg (fun h => hab h.symm)]
        exact pyCompareVal_gt_iff_lt

theorem pyCompareRec_lt_trans {xs ys zs : Record} (h1 : pyCompareRec xs ys = some .lt)
    (h2 : pyCompareRec ys zs = some .lt) : pyCompareRec xs zs = some .lt := by
  induction xs generalizing ys zs with
  | nil =>
    cases ys with
    | nil => simp [pyCompareRec] at h1
    | cons b ys =>
      cases zs with
      | nil => simp [pyCompareRec] at h2
      | cons c zs => simp [pyCompareRec]
  | cons a xs ih =>
    cases ys with
    | nil => simp [pyCompareRec] at h1
    | cons b ys =>
      cases zs with
      | nil => simp [pyCompareRec] at h2
      | cons c zs =>
        by_cases hab : a = b
        · subst hab
          rw [pyCompareRec, if_pos rfl] at h1
          by_cases hac : a = c
          · subst hac
            rw [pyCompareRec, if_pos rfl] at h2 ⊢
            exact ih h1 h2
          · rw [pyCompareRec, if_neg hac] at h2 ⊢
            exact h2
        · rw [pyCompareRec, if_neg hab] at h1
          by_cases hbc : b = c
          · subst hbc
            rw [pyCompareRec, if_neg hab]
            exact h1
          · rw [pyCompareRec, if_neg hbc] at h2
            have hval := pyCompareVal_lt_trans h1 h2
            have hac : a ≠ c := by
              intro h
              subst h
              have hgt := pyCompareVal_gt_iff_lt.mpr h2
              rw [h1] at hgt
              simp at hgt
            rw [pyCompareRec, if_neg hac]
            exact hval

/-- The strict order Python sorting induces on records. -/
def recLt (a b : Record) : Prop := pyCompareRec a b = some .lt

/-- The reflexive closure of `recLt`. -/
def recLe (a b : Record) : Prop := recLt a b ∨ a = b

theorem recLt_asymm {a b : Record} (h1 : recLt a b) (h2 : recLt b a) : False := by
  have hgt := pyCompareRec_gt_iff_lt.mpr h2
  rw [recLt, hgt] at h1
  simp at h1

theorem recLt_irrefl (a : Record) : ¬ recLt a a := by
  intro h
  rw [recLt, pyCompareRec_refl] at h
  simp at h

theorem recLe_trans {a b c : Record} (h1 : recLe a b) (h2 : recLe b c) : recLe a c := by
  rcases h1 with h1 | rfl
  · rcases h2 with h2 | rfl
    · exact Or.inl (pyCompareRec_lt_trans h1 h2)
    · exact Or.inl h1
  · exact h2

/-! ### Properties of the Python sort and of `_clean` -/

theorem pyInsert_perm {x : Record} {l m : List Record} (h : pyInsert x l = some m) :
    (x :: l).Perm m := by
  induction l generalizing m with
  | nil =>
    rw [pyInsert] at h
    injection h with h
    rw [h]
  | cons y ys ih =>
    rw [pyInsert] at h
    cases hcmp : pyCompareRec x y with
    | none => rw [hcmp] at h; simp at h
    | some o =>
      rw [hcmp] at h
      cases o with
      | lt => injection h with h; rw [h]
      | eq => injection h with h; rw [h]
      | gt =>
        cases hi : pyInsert x ys with
        | none => rw [hi] at h; simp at h
        | some m' =>
          rw [hi] at h
          simp only [Option.map_some] at h
          injection h with h
          rw [h.symm]
          exact (List.Perm.swap y x ys).trans ((ih hi).cons y)

theorem pySort_perm {l m : List Record} (h : pySort l = some m) : l.Perm m := by
  induction l generalizing m with
  | nil =>
    rw [pySort] at h
    injection h with h
    rw [h]
  | cons x xs ih =>
    rw [pySort] at h
    cases hs : pySort xs with
    | none => rw [hs] at h; simp at h
    | some m' =>
      rw [hs] at h
      simp only [Option.some_bind] at h
      exact ((ih hs).cons x).trans (pyInsert_perm h)

theorem pyInsert_sorted {x : Record} {l m : List Record} (hl : l.Pairwise recLe)
    (h : pyInsert x l = some m) : m.Pairwise recLe := by
  induction l generalizing m with
  | nil =>
    rw [pyInsert] at h
    injection h with h
    rw [h.symm]
    exact List.pairwise_singleton recLe x
  | cons y ys ih =>
    rw [pyInsert] at h
    obtain ⟨hy, hys⟩ := List.pairwise_cons.mp hl
    cases hcmp : pyCompareRec x y with
    | none => rw [hcmp] at h; simp at h
    | some o =>
      rw [hcmp] at h
      cases o with
      | lt =>
        injection h with h
        rw [h.symm]
        refine List.pairwise_cons.mpr ⟨?_, hl⟩
        intro b hb
        rcases List.mem_cons.mp hb with rfl | hb
        · exact Or.inl hcmp
        · exact recLe_trans (Or.inl hcmp) (hy b hb)
      | eq =>
        injection h with h
        rw [h.symm]
        refine List.pairwise_cons.mpr ⟨?_, hl⟩
        intro b hb
        have hxy : x = y := pyCompareRec_eq_some_eq.mp hcmp
        rcases List.mem_cons.mp hb with rfl | hb
        · exact Or.inr hxy
        · exact recLe_trans (Or.inr hxy) (hy b hb)
      | gt =>
        cases hi : pyInsert x ys with
        | none => rw [hi] at h; simp at h
        | some m' =>
          rw [hi] at h
          simp only [Option.map_some] at h
          injection h with h
          rw [h.symm]
          refine List.pairwise_cons.mpr ⟨?_, ih hys hi⟩
          intro b hb
          have hb' : b ∈ x :: ys := (pyInsert_perm hi).mem_iff.mpr hb
          rcases List.mem_cons.mp hb' with rfl | hb'
          · exact Or.inl (pyCompareRec_gt_iff_lt.mp hcmp)
          · exact hy b hb'

theorem pySort_sorted {l m : List Record} (h : pySort l = some m) : m.Pairwise recLe := by
  induction l generalizing m with
  | nil =>
    rw [pySort] at h
    injection h with h
    rw [h.symm]
    exact List.Pairwise.nil
  | cons x xs ih =>
    rw [pySort] at h
    cases hs : pySort xs with
    | none => rw [hs] at h; simp at h
    | some m' =>
      rw [hs] at h
      simp only [Option.some_bind] at h
      exact pyInsert_sorted (ih hs) h

theorem pySort_of_sorted {l : List Record} (h : l.Pairwise recLt) : pySort l = some l := by
  induction l with
  | nil => rfl
  | cons x xs ih =>
    obtain ⟨hx, hxs⟩ := List.pairwise_cons.mp h
    rw [pySort, ih hxs]
    simp only [Option.some_bind]
    cases xs with
    | nil => rfl
    | cons y ys =>
      rw [pyInsert, hx y (List.mem_cons_self y ys)]

theorem sorted_recLt_ext {l₁ l₂ : List Record} (h₁ : l₁.Pairwise recLt)
    (h₂ : l₂.Pairwise recLt) (hmem : ∀ a, a ∈ l₁ ↔ a ∈ l₂) : l₁ = l₂ := by
  induction l₁ generalizing l₂ with
  | nil =>
    cases l₂ with
    | nil => rfl
    | cons y ys => exact absurd ((hmem y).mpr (List.mem_cons_self y ys)) (List.not_mem_nil y)
  | cons x xs ih =>
    cases l₂ with
    | nil => exact absurd ((hmem x).mp (List.mem_cons_self x xs)) (List.not_mem_nil x)
    | cons y ys =>
      obtain ⟨hx1, hxs1⟩ := List.pairwise_cons.mp h₁
      obtain ⟨hy2, hys2⟩ := List.pairwise_cons.mp h₂
      have hxy : x = y := by
        rcases List.mem_cons.mp ((hmem x).mp (List.mem_cons_self x xs)) with h | hxys
        · exact h
        · rcases List.mem_cons.mp ((hmem y).mpr (List.mem_cons_self y ys)) with h | hyxs
          · exact h.symm
          · exact absurd (hx1 y hyxs) (fun hlt => recLt_asymm hlt (hy2 x hxys))
      subst hxy
      have htail : ∀ a, a ∈ xs ↔ a ∈ ys := by
        intro a
        constructor
        · intro ha
          rcases List.mem_cons.mp ((hmem a).mp (List.mem_cons_of_mem x ha)) with rfl | h
          · exact absurd (hx1 a ha) (recLt_irrefl a)
          · exact h
        · intro ha
          rcases List.mem_cons.mp ((hmem a).mpr (List.mem_cons_of_mem x ha)) with rfl | h
          · exact absurd (hy2 a ha) (recLt_irrefl a)
          · exact h
      rw [ih hxs1 hys2 htail]

theorem clean_ok_mem {l m : List Record} (h : _clean l = .ok m) :
    ∀ a, a ∈ m ↔ a ∈ l := by
  rw [_clean] at h
  cases hs : pySort l.dedup with
  | none => rw [hs] at h; simp at h
  | some m' =>
    rw [hs] at h
    injection h with h
    rw [h.symm]
    intro a
    exact ((pySort_perm hs).mem_iff.symm).trans List.mem_dedup

theorem clean_ok_nodup {l m : List Record} (h : _clean l = .ok m) : m.Nodup := by
  rw [_clean] at h
  cases hs : pySort l.dedup with
  | none => rw [hs] at h; simp at h
  | some m' =>
    rw [hs] at h
    injection h with h
    rw [h.symm]
    exact (pySort_perm hs).nodup (List.nodup_dedup l)

theorem clean_ok_sorted {l m : List Record} (h : _clean l = .ok m) : m.Pairwise recLe := by
  rw [_clean] at h
  cases hs : pySort l.dedup with
  | none => rw [hs] at h; simp at h
  | some m' =>
    rw [hs] at h
    injection h with h
    rw [h.symm]
    exact pySort_sorted hs

theorem clean_ok_sorted_strict {l m : List Record} (h : _clean l = .ok m) :
    m.Pairwise recLt := by
  have hand := (clean_ok_sorted h).and (clean_ok_nodup h)
  exact hand.imp (fun hab => hab.1.resolve_right hab.2)

theorem clean_of_clean {X Y : List Record} (h : _clean X = .ok Y) : _clean Y = .ok Y := by
  have hnd : Y.Nodup := clean_ok_nodup h
  have hlt : Y.Pairwise recLt := clean_ok_sorted_strict h
  rw [_clean, List.dedup_eq_self.mpr hnd, pySort_of_sorted hlt]

theorem clean_ok_unique {X Y Zx Zy : List Record} (hmem : ∀ a, a ∈ X ↔ a ∈ Y)
    (hx : _clean X = .ok Zx) (hy : _clean Y = .ok Zy) : Zx = Zy := by
  refine sorted_recLt_ext (clean_ok_sorted_strict hx) (clean_ok_sorted_strict hy) ?_
  intro a
  rw [clean_ok_mem hx a, clean_ok_mem hy a]
  exact hmem a

/-! ### The sort never raises on records made of strings only -/

/-- A record all of whose fields are strings (as the rename records are). -/
def IsStrRec (r : Record) : Prop := ∀ v ∈ r, ∃ s, v = PyVal.str s

theorem pyCompareRec_isSome_of_str {xs ys : Record} (hx : IsStrRec xs) (hy : IsStrRec ys) :
    ∃ o, pyCompareRec xs ys = some o := by
  induction xs generalizing ys with
  | nil =>
    cases ys with
    | nil => exact ⟨.eq, rfl⟩
    | cons b ys => exact ⟨.lt, rfl⟩
  | cons a xs ih =>
    cases ys with
    | nil => exact ⟨.gt, rfl⟩
    | cons b ys =>
      by_cases hab : a = b
      · rw [pyCompareRec, if_pos hab]
        exact ih (fun v hv => hx v (List.mem_cons_of_mem a hv))
          (fun v hv => hy v (List.mem_cons_of_mem b hv))
      · rw [pyCompareRec, if_neg hab]
        obtain ⟨s, hs⟩ := hx a (List.mem_cons_self a xs)
        obtain ⟨t, ht⟩ := hy b (List.mem_cons_self b ys)
        rw [hs, ht]
        exact ⟨cmpStr s t, rfl⟩

theorem pyInsert_isSome_of_str {x : Record} {l : List Record} (hx : IsStrRec x)
    (hl : ∀ y ∈ l, IsStrRec y) : ∃ m, pyInsert x l = some m := by
  induction l with
  | nil => exact ⟨[x], rfl⟩
  | cons y ys ih =>
    obtain ⟨o, ho⟩ := pyCompareRec_isSome_of_str hx (hl y (List.mem_cons_self y ys))
    rw [pyInsert, ho]
    cases o with
    | lt => exact ⟨x :: y :: ys, rfl⟩
    | eq => exact ⟨x :: y :: ys, rfl⟩
    | gt =>
      obtain ⟨m', hm'⟩ := ih (fun z hz => hl z (List.mem_cons_of_mem y hz))
      rw [hm']
      exact ⟨y :: m', rfl⟩

theorem pySort_isSome_of_str {l : List Record} (hl : ∀ y ∈ l, IsStrRec y) :
    ∃ m, pySort l = some m := by
  induction l with
  | nil => exact ⟨[], rfl⟩
  | cons x xs ih =>
    obtain ⟨m', hm'⟩ := ih (fun y hy => hl y (List.mem_cons_of_mem x hy))
    have hm'str : ∀ y ∈ m', IsStrRec y := by
      intro y hy
      exact hl y (List.mem_cons_of_mem x ((pySort_perm hm').mem_iff.mpr hy))
    obtain ⟨m, hm⟩ := pyInsert_isSome_of_str (hl x (List.mem_cons_self x xs)) hm'str
    rw [pySort, hm', Option.some_bind, hm]
    exact ⟨m, rfl⟩

theorem clean_ok_of_str {l : List Record} (hl : ∀ y ∈ l, IsStrRec y) :
    ∃ m, _clean l = .ok m := by
  obtain ⟨m, hm⟩ := pySort_isSome_of_str
    (fun y hy => hl y (List.mem_dedup.mp hy))
  rw [_clean, hm]
  exact ⟨m, rfl⟩

/-! ### Properties of the monadic map -/

theorem mapME_ok_forall {α β : Type} {f : α → Except PyErr β} {l : List α} {ys : List β}
    (h : mapME f l = .ok ys) : ∀ x ∈ l, ∃ y, f x = .ok y ∧ y ∈ ys := by
  induction l generalizing ys with
  | nil => intro x hx; exact absurd hx (List.not_mem_nil x)
  | cons a l ih =>
    rw [mapME] at h
    cases hf : f a with
    | error e => rw [hf] at h; simp at h
    | ok y =>
      rw [hf] at h
      cases hr : mapME f l with
      | error e => rw [hr] at h; simp at h
      | ok ys' =>
        rw [hr] at h
        injection h with h
        intro x hx
        rcases List.mem_cons.mp hx with rfl | hx
        · exact ⟨y, hf, h ▸ List.mem_cons_self y ys'⟩
        · obtain ⟨z, hz, hzmem⟩ := ih hr x hx
          exact ⟨z, hz, h ▸ List.mem_cons_of_mem y hzmem⟩

theorem mapME_ok_mem {α β : Type} {f : α → Except PyErr β} {l : List α} {ys : List β}
    (h : mapME f l = .ok ys) : ∀ y ∈ ys, ∃ x ∈ l, f x = .ok y := by
  induction l generalizing ys with
  | nil =>
    rw [mapME] at h
    injection h with h
    intro y hy
    rw [h.symm] at hy
    exact absurd hy (List.not_mem_nil y)
  | cons a l ih =>
    rw [mapME] at h
    cases hf : f a with
    | error e => rw [hf] at h; simp at h
    | ok y =>
      rw [hf] at h
      cases hr : mapME f l with
      | error e => rw [hr] at h; simp at h
      | ok ys' =>
        rw [hr] at h
        injection h with h
        intro z hz
        rw [h.symm] at hz
        rcases List.mem_cons.mp hz with rfl | hz
        · exact ⟨a, List.mem_cons_self a l, hf⟩
        · obtain ⟨x, hx, hfx⟩ := ih hr z hz
          exact ⟨x, List.mem_cons_of_mem a hx, hfx⟩

theorem mapME_error_of_mem {α β : Type} {f : α → Except PyErr β} {l : List α} {x : α}
    {e : PyErr} (hx : x ∈ l) (hf : f x = .error e) : ∃ e2, mapME f l = .error e2 := by
  induction l with
  | nil => exact absurd hx (List.not_mem_nil x)
  | cons a l ih =>
    rcases List.mem_cons.mp hx with rfl | hx
    · rw [mapME, hf]
      exact ⟨e, rfl⟩
    · rw [mapME]
      cases hfa : f a with
      | error e0 => exact ⟨e0, rfl⟩
      | ok y =>
        obtain ⟨e2, he2⟩ := ih hx
        rw [he2]
        exact ⟨e2, rfl⟩

/-! ### Structure of the records `extract_house_info` builds -/

theorem houseRecord_ok_no_suffix {corners : List (String × Coords)} {keys : List String}
    {house : Entity} {name : String} (h : ¬ 3 ≤ (corner_list corners house).length) :
    houseRecord corners keys house name = .ok (PyVal.str name :: auxInfo keys house) := by
  simp only [houseRecord]
  rw [if_neg h]

theorem houseRecord_ok_shape {corners : List (String × Coords)} {keys : List String}
    {house : Entity} {name : String} {r : Record}
    (h : houseRecord corners keys house name = .ok r) :
    ∃ suffix, r = (PyVal.str name :: auxInfo keys house) ++ suffix ∧
      (suffix = [] ∨ ∃ m n : Int, suffix = [PyVal.int m, PyVal.int n]) := by
  simp only [houseRecord] at h
  by_cases hlen : 3 ≤ (corner_list corners house).length
  · rw [if_pos hlen] at h
    cases hc : centroid (corner_list corners house) with
    | error e => rw [hc] at h; simp at h
    | ok c =>
      rw [hc] at h
      injection h with h
      exact ⟨[PyVal.int (pyIntOfQuot c.1.1 c.1.2), PyVal.int (pyIntOfQuot c.2.1 c.2.2)],
        h.symm, Or.inr ⟨_, _, rfl⟩⟩
  · rw [if_neg hlen] at h
    injection h with h
    exact ⟨[], by rw [h.symm, List.append_nil], Or.inl rfl⟩

theorem houseRecord_ok_length {corners : List (String × Coords)} {keys : List String}
    {house : Entity} {name : String} {r : Record}
    (h : houseRecord corners keys house name = .ok r) :
    r.length = 1 + (auxInfo keys house).length ∨
      r.length = 3 + (auxInfo keys house).length := by
  obtain ⟨suffix, hr, hs⟩ := houseRecord_ok_shape h
  rcases hs with rfl | ⟨m, n, rfl⟩
  · left
    rw [hr]
    simp [Nat.add_comm]
  · right
    rw [hr]
    simp [List.length_append]
    omega

theorem houseRecord_error_of_missing {corners : List (String × Coords)} {keys : List String}
    {house : Entity} {name r : String} (hr3 : 3 ≤ house.nodeRefs.length)
    (hmiss : r ∈ house.nodeRefs) (hnone : pyGet corners r = none) :
    houseRecord corners keys house name = .error .typeError := by
  have hlen : 3 ≤ (corner_list corners house).length := by
    rw [corner_list, List.length_map]
    exact hr3
  have hany : (corner_list corners house).any Option.isNone = true := by
    rw [List.any_eq_true]
    exact ⟨none, List.mem_map.mpr ⟨r, hmiss, hnone⟩, rfl⟩
  have hcent : centroid (corner_list corners house) = .error .typeError := by
    rw [centroid, if_pos hany]
  simp only [houseRecord]
  rw [if_pos hlen, hcent]

theorem houseRecord_error_of_centroid {corners : List (String × Coords)} {keys : List String}
    {house : Entity} {name : String} {e : PyErr} (hr3 : 3 ≤ house.nodeRefs.length)
    (hc : centroid (corner_list corners house) = .error e) :
    houseRecord corners keys house name = .error e := by
  have hlen : 3 ≤ (corner_list corners house).length := by
    rw [corner_list, List.length_map]
    exact hr3
  simp only [houseRecord]
  rw [if_pos hlen, hc]

theorem centroid_ok_of_resolved {cs : List (Option Coords)} {ps : List Coords}
    (hres : cs = ps.map some) (ha : signedArea2 ps ≠ 0) :
    centroid cs = .ok
      (((( (ps.zip (ps.rotate 1)).map (fun e => (e.1.1 + e.2.1) * (e.1.1 * e.2.2 - e.2.1 * e.1.2))).sum, 3 * signedArea2 ps)),
       (((ps.zip (ps.rotate 1)).map (fun e => (e.1.2 + e.2.2) * (e.1.1 * e.2.2 - e.2.1 * e.1.2))).sum, 3 * signedArea2 ps)) := by
  subst hres
  have hnone : (ps.map some).any Option.isNone = false := by
    rw [List.any_eq_false]
    intro o ho
    obtain ⟨p, _, hp⟩ := List.mem_map.mp ho
    rw [hp.symm]
    simp
  have hfm : (ps.map some).filterMap id = ps := by
    rw [List.filterMap_map]
    simp
  rw [centroid, hnone]
  simp only [Bool.false_eq_true, if_false, hfm]
  rw [if_neg ha]

theorem houseRecord_ok_of_resolved {corners : List (String × Coords)} {keys : List String}
    {house : Entity} {name : String} {ps : List Coords}
    (hr3 : 3 ≤ house.nodeRefs.length) (hres : corner_list corners house = ps.map some)
    (ha : signedArea2 ps ≠ 0) :
    ∃ m n : Int, houseRecord corners keys house name =
      .ok ((PyVal.str name :: auxInfo keys house) ++ [PyVal.int m, PyVal.int n]) := by
  have hlen : 3 ≤ (corner_list corners house).length := by
    rw [corner_list, List.length_map]
    exact hr3
  simp only [houseRecord]
  rw [if_pos hlen, centroid_ok_of_resolved hres ha]
  exact ⟨_, _, rfl⟩

/-! ### Relating `extract_house_info` to the per-entity records -/

theorem extract_parts {doc : Document} {proj : Rat → Rat → Coords} {keys : List String}
    {recs : List Record} (h : extract_house_info doc proj keys = .ok recs) :
    ∃ rs, house_records doc proj keys = .ok rs ∧ _clean rs = .ok recs := by
  rw [extract_house_info] at h
  cases hr : house_records doc proj keys with
  | error e => rw [hr] at h; simp [Except.bind] at h
  | ok rs =>
    rw [hr] at h
    exact ⟨rs, rfl, h⟩

theorem house_records_mem {doc : Document} {proj : Rat → Rat → Coords} {keys : List String}
    {rs : List Record} {r : Record} (h : house_records doc proj keys = .ok rs)
    (hr : r ∈ rs) :
    ∃ e, e ∈ doc.entities ∧
      ∃ kv, kv ∈ e.tags.filter (fun kv => kv.1 == "addr:housename") ∧
        houseRecord (all_corners doc proj) keys e kv.2 = .ok r := by
  rw [house_records] at h
  cases hm : mapME (fun e =>
      mapME (fun kv => houseRecord (all_corners doc proj) keys e kv.2)
        (e.tags.filter (fun kv => kv.1 == "addr:housename"))) doc.entities with
  | error e => rw [hm] at h; simp [Except.map] at h
  | ok rss =>
    rw [hm] at h
    simp only [Except.map] at h
    injection h with h
    rw [h.symm] at hr
    obtain ⟨inner, hinner, hrin⟩ := List.mem_flatten.mp hr
    obtain ⟨e, he, hfe⟩ := mapME_ok_mem hm inner hinner
    obtain ⟨kv, hkv, hfkv⟩ := mapME_ok_mem hfe r hrin
    exact ⟨e, he, kv, hkv, hfkv⟩

theorem house_records_mem_fwd {doc : Document} {proj : Rat → Rat → Coords}
    {keys : List String} {rs : List Record} {e : Entity} {kv : String × String} {r : Record}
    (h : house_records doc proj keys = .ok rs) (he : e ∈ doc.entities)
    (hkv : kv ∈ e.tags.filter (fun kv => kv.1 == "addr:housename"))
    (hrec : houseRecord (all_corners doc proj) keys e kv.2 = .ok r) : r ∈ rs := by
  rw [house_records] at h
  cases hm : mapME (fun e =>
      mapME (fun kv => houseRecord (all_corners doc proj) keys e kv.2)
        (e.tags.filter (fun kv => kv.1 == "addr:housename"))) doc.entities with
  | error e2 => rw [hm] at h; simp [Except.map] at h
  | ok rss =>
    rw [hm] at h
    simp only [Except.map] at h
    injection h with h
    obtain ⟨inner, hfe, hinner⟩ := mapME_ok_forall hm e he
    obtain ⟨y, hy, hymem⟩ := mapME_ok_forall hfe kv hkv
    rw [hrec] at hy
    injection hy with hy
    rw [h.symm]
    exact List.mem_flatten.mpr ⟨inner, hinner, hy ▸ hymem⟩

theorem house_records_error {doc : Document} {proj : Rat → Rat → Coords}
    {keys : List String} {e : Entity} {kv : String × String} {err : PyErr}
    (he : e ∈ doc.entities)
    (hkv : kv ∈ e.tags.filter (fun kv => kv.1 == "addr:housename"))
    (hrec : houseRecord (all_corners doc proj) keys e kv.2 = .error err) :
    ∃ err2, extract_house_info doc proj keys = .error err2 := by
  obtain ⟨e1, he1⟩ := @mapME_error_of_mem (String × String) Record
    (fun kv => houseRecord (all_corners doc proj) keys e kv.2)
    (e.tags.filter (fun kv => kv.1 == "addr:housename")) kv err hkv hrec
  obtain ⟨e2, he2⟩ := @mapME_error_of_mem Entity (List Record)
    (fun e => mapME (fun kv => houseRecord (all_corners doc proj) keys e kv.2)
      (e.tags.filter (fun kv => kv.1 == "addr:housename")))
    doc.entities e e1 he he1
  refine ⟨e2, ?_⟩
  rw [extract_house_info, house_records, he2]
  rfl

theorem housename_tag_mem_filter {e : Entity} {v : String}
    (h : ("addr:housename", v) ∈ e.tags) :
    ("addr:housename", v) ∈ e.tags.filter (fun kv => kv.1 == "addr:housename") :=
  List.mem_filter.mpr ⟨h, by simp⟩

theorem auxInfo_length_le {keys : List String} {e : Entity}
    (hnd : (e.tags.map Prod.fst).Nodup) : (auxInfo keys e).length ≤ keys.length := by
  rw [auxInfo, List.length_map]
  have hsub : List.Sublist ((e.tags.filter (fun kv => decide (kv.1 ∈ keys))).map Prod.fst)
      (e.tags.map Prod.fst) := (List.filter_sublist e.tags).map Prod.fst
  have hnd2 : ((e.tags.filter (fun kv => decide (kv.1 ∈ keys))).map Prod.fst).Nodup :=
    hnd.sublist hsub
  have hss : (e.tags.filter (fun kv => decide (kv.1 ∈ keys))).map Prod.fst ⊆ keys := by
    intro x hx
    obtain ⟨kv, hkv, hfst⟩ := List.mem_map.mp hx
    have := (List.mem_filter.mp hkv).2
    rw [hfst] at this
    exact of_decide_eq_true this
  have hle := (hnd2.subperm hss).length_le
  rw [List.length_map] at hle
  exact hle

/-! ### Structure of the rename query -/

theorem renamesOf_mem_shape {e : Entity} {r : Record} (h : r ∈ renamesOf e) :
    ∃ old new, r = [PyVal.str old, PyVal.str new] := by
  rw [renamesOf] at h
  obtain ⟨kv, hkv, hr⟩ := List.mem_flatMap.mp h
  cases hfind : e.tags.find? (fun kv2 => kv2.1 == "addr:housename") with
  | none => rw [hfind] at hr; exact absurd hr (List.not_mem_nil r)
  | some kv2 =>
    rw [hfind] at hr
    rcases List.mem_singleton.mp hr with rfl
    exact ⟨kv.2, kv2.2, rfl⟩

theorem renamesOf_of_find {e : Entity} {old : String} {hkv2 : String × String}
    (hold : ("old_name", old) ∈ e.tags)
    (hfind : e.tags.find? (fun kv2 => kv2.1 == "addr:housename") = some hkv2) :
    [PyVal.str old, PyVal.str hkv2.2] ∈ renamesOf e := by
  rw [renamesOf]
  refine List.mem_flatMap.mpr ⟨("old_name", old), List.mem_filter.mpr ⟨hold, by simp⟩, ?_⟩
  rw [hfind]
  exact List.mem_singleton.mpr rfl

theorem renamesOf_eq_nil_of_no_housename {e : Entity}
    (hfind : e.tags.find? (fun kv2 => kv2.1 == "addr:housename") = none) :
    renamesOf e = [] := by
  simp only [renamesOf, hfind]
  simp

theorem get_previous_names_ok (doc : Document) :
    ∃ l, get_previous_names doc = .ok l := by
  rw [get_previous_names]
  refine clean_ok_of_str ?_
  intro y hy
  obtain ⟨e, _, hye⟩ := List.mem_flatMap.mp hy
  obtain ⟨old, new, rfl⟩ := renamesOf_mem_shape hye
  intro v hv
  rcases List.mem_cons.mp hv with rfl | hv
  · exact ⟨old, rfl⟩
  · rcases List.mem_singleton.mp (by simpa using hv) with rfl
    exact ⟨new, rfl⟩

theorem get_previous_names_mem {doc : Document} {l : List Record} {r : Record}
    (h : get_previous_names doc = .ok l) :
    (r ∈ l ↔ r ∈ doc.entities.flatMap renamesOf) := by
  rw [get_previous_names] at h
  exact clean_ok_mem h r

/-! ### Concrete documents used as test inputs -/

/-- A simple stand-in for the external projection: floor of latitude and of
longitude. -/
def projFloor : Rat → Rat → Coords := fun la lo => (la.floor, lo.floor)

/-- Two houses: Birchwood with a postcode and a square footprint of four
valid nodes, and Ivy Cottage with an old name and no nodes. -/
def docScenario : Document :=
  { nodes := [⟨"n1", 0, 0⟩, ⟨"n2", 2, 0⟩, ⟨"n3", 2, 2⟩, ⟨"n4", 0, 2⟩],
    entities :=
      [⟨["n1", "n2", "n3", "n4"],
        [("addr:housename", "Birchwood"), ("addr:postcode", "PH20 1AA")]⟩,
       ⟨[], [("addr:housename", "Ivy Cottage"), ("old_name", "The Croft")]⟩] }

/-- Two houses with the same name, one record carrying integer coordinates
and the other a string at the same position. -/
def docMixed : Document :=
  { nodes := [⟨"n1", 0, 0⟩, ⟨"n2", 2, 0⟩, ⟨"n3", 0, 2⟩],
    entities :=
      [⟨["n1", "n2", "n3"], [("addr:housename", "Same")]⟩,
       ⟨[], [("addr:housename", "Same"), ("p", "Z")]⟩] }

/-- A house with four footprint references of which one (n4) has no node in
the document, so its lookup in the coordinate index fails; the other three
resolve to distinct non-collinear points. -/
def docMissingRef : Document :=
  { nodes := [⟨"n1", 0, 0⟩, ⟨"n2", 2, 0⟩, ⟨"n3", 2, 2⟩],
    entities := [⟨["n1", "n2", "n3", "n4"], [("addr:housename", "H")]⟩] }

/-- A house whose three footprint nodes are collinear (degenerate polygon),
followed by a second perfectly ordinary house. -/
def docCollinear : Document :=
  { nodes := [⟨"n1", 0, 0⟩, ⟨"n2", 1, 1⟩, ⟨"n3", 2, 2⟩],
    entities :=
      [⟨["n1", "n2", "n3"], [("addr:housename", "A")]⟩,
       ⟨[], [("addr:housename", "B")]⟩] }

/-- A house whose auxiliary tags sit on the entity in the order b then a. -/
def docTagOrder : Document :=
  { nodes := [],
    entities := [⟨[], [("addr:housename", "H"), ("b", "vb"), ("a", "va")]⟩] }

/-- A single house carrying only its name; a requested auxiliary key is
absent. -/
def docNameOnly : Document :=
  { nodes := [], entities := [⟨[], [("addr:housename", "X")]⟩] }

/-- A single renamed house. -/
def docRenamed : Document :=
  { nodes := [],
    entities := [⟨[], [("addr:housename", "New House"), ("old_name", "Old House")]⟩] }

theorem house_records_ok_forall {doc : Document} {proj : Rat → Rat → Coords}
    {keys : List String} {rs : List Record} {e : Entity} {kv : String × String}
    (h : house_records doc proj keys = .ok rs) (he : e ∈ doc.entities)
    (hkv : kv ∈ e.tags.filter (fun kv => kv.1 == "addr:housename")) :
    ∃ r, houseRecord (all_corners doc proj) keys e kv.2 = .ok r ∧ r ∈ rs := by
  rw [house_records] at h
  cases hm : mapME (fun e =>
      mapME (fun kv => houseRecord (all_corners doc proj) keys e kv.2)
        (e.tags.filter (fun kv => kv.1 == "addr:housename"))) doc.entities with
  | error e2 => rw [hm] at h; simp [Except.map] at h
  | ok rss =>
    rw [hm] at h
    simp only [Except.map] at h
    injection h with h
    obtain ⟨inner, hfe, hinner⟩ := mapME_ok_forall hm e he
    obtain ⟨r, hr, hrmem⟩ := mapME_ok_forall hfe kv hkv
    exact ⟨r, hr, h ▸ List.mem_flatten.mpr ⟨inner, hinner, hrmem⟩⟩

/-! ### The claims -/

/-- C1 counterexample: with the single requested key p, the extraction of a
document whose one house carries no p tag returns a record of length 1,
which is neither 1 + 1 nor 3 + 1. -/
theorem C1_counterexample :
    extract_house_info docNameOnly projFloor ["p"] = .ok [[PyVal.str "X"]] ∧
      ¬ (([PyVal.str "X"] : Record).length = 1 + (["p"] : List String).length ∨
         ([PyVal.str "X"] : Record).length = 3 + (["p"] : List String).length) :=
  ⟨rfl, by decide⟩

/-- C1 (amended): absent auxiliary keys shorten records, so with k requested
keys and tag keys unique on each entity, every record of a successful
extraction has length in [1, 1 + k] or in [3, 3 + k] rather than exactly
1 + k or 3 + k. -/
theorem C1_record_length_range {doc : Document} {proj : Rat → Rat → Coords}
    {keys : List String} {recs : List Record}
    (hnd : ∀ e ∈ doc.entities, (e.tags.map Prod.fst).Nodup)
    (h : extract_house_info doc proj keys = .ok recs) :
    ∀ r ∈ recs, (1 ≤ r.length ∧ r.length ≤ 1 + keys.length) ∨
      (3 ≤ r.length ∧ r.length ≤ 3 + keys.length) := by
  intro r hr
  obtain ⟨rs, hrs, hclean⟩ := extract_parts h
  obtain ⟨e, he, kv, hkv, hrec⟩ := house_records_mem hrs ((clean_ok_mem hclean r).mp hr)
  have hb := @auxInfo_length_le keys e (hnd e he)
  rcases houseRecord_ok_length hrec with hl | hl
  · left
    omega
  · right
    omega

/-- C1 witness: evaluating the amended claim on the scenario document, whose
Ivy Cottage record has length 1. -/
theorem C1_witness :
    (∀ e ∈ docScenario.entities, (e.tags.map Prod.fst).Nodup) ∧
    ((1 ≤ ([PyVal.str "Ivy Cottage"] : Record).length ∧
        ([PyVal.str "Ivy Cottage"] : Record).length ≤ 1 + (["addr:postcode"] : List String).length) ∨
     (3 ≤ ([PyVal.str "Ivy Cottage"] : Record).length ∧
        ([PyVal.str "Ivy Cottage"] : Record).length ≤ 3 + (["addr:postcode"] : List String).length)) :=
  ⟨by decide, @C1_record_length_range docScenario projFloor ["addr:postcode"]
    [[PyVal.str "Birchwood", PyVal.str "PH20 1AA", PyVal.int 1, PyVal.int 1],
     [PyVal.str "Ivy Cottage"]] (by decide) rfl [PyVal.str "Ivy Cottage"] (by decide)⟩

/-- C2 counterexample: a house with four footprint references of which one is
absent from the coordinate index is not processed with the remaining three
points: the whole extraction aborts with a TypeError. -/
theorem C2_counterexample :
    pyGet (all_corners docMissingRef projFloor) "n4" = none ∧
      extract_house_info docMissingRef projFloor [] = .error .typeError :=
  ⟨rfl, rfl⟩

/-- C2 (amended): an unresolvable node reference is not dropped from the
corner list — its None entry still counts toward the three-reference
threshold, the centroid call receives it and raises, and the whole extraction
aborts instead of processing the entity with the remaining resolvable
points. -/
theorem C2_unresolvable_ref_aborts {doc : Document} {proj : Rat → Rat → Coords}
    {keys : List String} {e : Entity} {v r : String}
    (he : e ∈ doc.entities) (hv : ("addr:housename", v) ∈ e.tags)
    (hr3 : 3 ≤ e.nodeRefs.length) (hmem : r ∈ e.nodeRefs)
    (hnone : pyGet (all_corners doc proj) r = none) :
    houseRecord (all_corners doc proj) keys e v = .error .typeError ∧
      ∃ err, extract_house_info doc proj keys = .error err := by
  have hrec := @houseRecord_error_of_missing (all_corners doc proj) keys e v r hr3 hmem hnone
  exact ⟨hrec, house_records_error he (housename_tag_mem_filter hv) hrec⟩

/-- C2 witness: the amended claim evaluated on the document with the missing
reference n4. -/
theorem C2_witness :
    pyGet (all_corners docMissingRef projFloor) "n4" = none ∧
    (houseRecord (all_corners docMissingRef projFloor) []
        ⟨["n1", "n2", "n3", "n4"], [("addr:housename", "H")]⟩ "H" = .error .typeError ∧
      ∃ err, extract_house_info docMissingRef projFloor [] = .error err) :=
  ⟨rfl, @C2_unresolvable_ref_aborts docMissingRef projFloor []
    ⟨["n1", "n2", "n3", "n4"], [("addr:housename", "H")]⟩ "H" "n4"
    (by decide) (by decide) (by decide) (by decide) rfl⟩

/-- C3 counterexample: the degenerate (collinear) polygon of house A makes
its centroid fail, and the failure is not caught: no record is emitted for A
without a suffix, house B is never processed, and the whole extraction
returns an error. -/
theorem C3_counterexample :
    centroid (corner_list (all_corners docCollinear projFloor)
        ⟨["n1", "n2", "n3"], [("addr:housename", "A")]⟩) = .error .geometryError ∧
      extract_house_info docCollinear projFloor [] = .error .geometryError :=
  ⟨rfl, rfl⟩

/-- C3 (amended): a centroid failure for one entity is not caught by
extract_house_info: the error propagates and the whole extraction aborts,
emitting no records for that entity or any other. -/
theorem C3_centroid_failure_aborts {doc : Document} {proj : Rat → Rat → Coords}
    {keys : List String} {e : Entity} {v : String} {err : PyErr}
    (he : e ∈ doc.entities) (hv : ("addr:housename", v) ∈ e.tags)
    (hr3 : 3 ≤ e.nodeRefs.length)
    (hc : centroid (corner_list (all_corners doc proj) e) = .error err) :
    ∃ err2, extract_house_info doc proj keys = .error err2 :=
  house_records_error he (housename_tag_mem_filter hv)
    (houseRecord_error_of_centroid hr3 hc)

/-- C3 witness: the amended claim evaluated on the collinear document. -/
theorem C3_witness :
    centroid (corner_list (all_corners docCollinear projFloor)
        ⟨["n1", "n2", "n3"], [("addr:housename", "A")]⟩) = .error .geometryError ∧
      ∃ err2, extract_house_info docCollinear projFloor [] = .error err2 :=
  ⟨rfl, @C3_centroid_failure_aborts docCollinear projFloor []
    ⟨["n1", "n2", "n3"], [("addr:housename", "A")]⟩ "A" .geometryError
    (by decide) (by decide) (by decide) rfl⟩

/-- C4 counterexample: the house of docMissingRef has exactly three
resolvable node coordinates, distinct and non-collinear, yet it never
receives a centroid suffix: the extraction aborts with an error instead. -/
theorem C4_counterexample :
    (corner_list (all_corners docMissingRef projFloor)
        ⟨["n1", "n2", "n3", "n4"], [("addr:housename", "H")]⟩).filterMap id =
      [(0, 0), (2, 0), (2, 2)] ∧
    signedArea2 [(0, 0), (2, 0), (2, 2)] ≠ 0 ∧
    extract_house_info docMissingRef projFloor [] = .error .typeError :=
  ⟨rfl, by decide, rfl⟩

/-- C4 (amended): the three-corner threshold counts node references whether
or not they resolve: fewer than three references never yields a suffix; at
least three references that all resolve to a polygon of nonzero signed area
always yields the truncated centroid pair; an unresolvable reference among
at least three raises a TypeError instead of appending nothing. -/
theorem C4_footprint_threshold (corners : List (String × Coords)) (keys : List String)
    (house : Entity) (name : String) :
    (¬ 3 ≤ house.nodeRefs.length →
      houseRecord corners keys house name = .ok (PyVal.str name :: auxInfo keys house)) ∧
    (∀ ps : List Coords, 3 ≤ house.nodeRefs.length →
      corner_list corners house = ps.map some → signedArea2 ps ≠ 0 →
      ∃ m n : Int, houseRecord corners keys house name =
        .ok ((PyVal.str name :: auxInfo keys house) ++ [PyVal.int m, PyVal.int n])) ∧
    (∀ r ∈ house.nodeRefs, 3 ≤ house.nodeRefs.length → pyGet corners r = none →
      houseRecord corners keys house name = .error .typeError) := by
  refine ⟨?_, ?_, ?_⟩
  · intro h
    apply houseRecord_ok_no_suffix
    rw [corner_list, List.length_map]
    exact h
  · intro ps h3 hres ha
    exact houseRecord_ok_of_resolved h3 hres ha
  · intro r hr h3 hnone
    exact houseRecord_error_of_missing h3 hr hnone

/-- C4 witness: the fully resolvable square footprint of Birchwood receives
a suffix, and the house with an unresolvable fourth reference raises. -/
theorem C4_witness :
    (∃ m n : Int, houseRecord (all_corners docScenario projFloor) ["addr:postcode"]
        ⟨["n1", "n2", "n3", "n4"],
          [("addr:housename", "Birchwood"), ("addr:postcode", "PH20 1AA")]⟩ "Birchwood" =
        .ok ((PyVal.str "Birchwood" ::
            auxInfo ["addr:postcode"]
              ⟨["n1", "n2", "n3", "n4"],
                [("addr:housename", "Birchwood"), ("addr:postcode", "PH20 1AA")]⟩) ++
          [PyVal.int m, PyVal.int n])) ∧
    houseRecord (all_corners docMissingRef projFloor) []
        ⟨["n1", "n2", "n3", "n4"], [("addr:housename", "H")]⟩ "H" = .error .typeError :=
  ⟨(C4_footprint_threshold (all_corners docScenario projFloor) ["addr:postcode"]
      ⟨["n1", "n2", "n3", "n4"],
        [("addr:housename", "Birchwood"), ("addr:postcode", "PH20 1AA")]⟩ "Birchwood").2.1
      [(0, 0), (2, 0), (2, 2), (0, 2)] (by decide) rfl (by decide),
    (C4_footprint_threshold (all_corners docMissingRef projFloor) []
      ⟨["n1", "n2", "n3", "n4"], [("addr:housename", "H")]⟩ "H").2.2
      "n4" (by decide) (by decide) rfl⟩

/-- C5 counterexample: keys requested in the order a then b, but the record
lists the values in entity-tag order vb then va. -/
theorem C5_counterexample :
    extract_house_info docTagOrder projFloor ["a", "b"] =
      .ok [[PyVal.str "H", PyVal.str "vb", PyVal.str "va"]] ∧
    [PyVal.str "H", PyVal.str "vb", PyVal.str "va"] ≠
      [PyVal.str "H", PyVal.str "va", PyVal.str "vb"] :=
  ⟨rfl, by decide⟩

/-- C5 (amended): the auxiliary values are appended in the order the tags
sit on the entity, not in auxiliary_keys order: whenever extraction
succeeds, its output contains, for each housename tag, the record headed by
the name followed by the entity-tag-ordered auxiliary section. -/
theorem C5_aux_in_entity_order {doc : Document} {proj : Rat → Rat → Coords}
    {keys : List String} {recs : List Record} {e : Entity} {v : String}
    (h : extract_house_info doc proj keys = .ok recs)
    (he : e ∈ doc.entities) (hv : ("addr:housename", v) ∈ e.tags) :
    ∃ suffix, (PyVal.str v :: auxInfo keys e) ++ suffix ∈ recs := by
  obtain ⟨rs, hrs, hclean⟩ := extract_parts h
  obtain ⟨r, hrec, hmem⟩ := house_records_ok_forall hrs he (housename_tag_mem_filter hv)
  obtain ⟨suffix, hshape, _⟩ := houseRecord_ok_shape hrec
  exact ⟨suffix, (clean_ok_mem hclean _).mpr (hshape ▸ hmem)⟩

/-- C5 witness: the amended claim evaluated on the tag-order document. -/
theorem C5_witness :
    extract_house_info docTagOrder projFloor ["a", "b"] =
      .ok [[PyVal.str "H", PyVal.str "vb", PyVal.str "va"]] ∧
    ∃ suffix, (PyVal.str "H" ::
        auxInfo ["a", "b"] ⟨[], [("addr:housename", "H"), ("b", "vb"), ("a", "va")]⟩) ++ suffix ∈
      [[PyVal.str "H", PyVal.str "vb", PyVal.str "va"]] :=
  ⟨rfl, @C5_aux_in_entity_order docTagOrder projFloor ["a", "b"]
    [[PyVal.str "H", PyVal.str "vb", PyVal.str "va"]]
    ⟨[], [("addr:housename", "H"), ("b", "vb"), ("a", "va")]⟩ "H" rfl (by decide) (by decide)⟩

/-- C6: an entity carrying a previous-name tag yields, when it also carries
a current housename tag, the pair (old value, first current value), old
first, in the output of the rename query, which never raises; an entity
with no current housename contributes nothing. -/
theorem C6_previous_names {doc : Document} {e : Entity} {old : String}
    (he : e ∈ doc.entities) (hold : ("old_name", old) ∈ e.tags) :
    ∃ l, get_previous_names doc = .ok l ∧
      (∀ kv2, e.tags.find? (fun kv => kv.1 == "addr:housename") = some kv2 →
        [PyVal.str old, PyVal.str kv2.2] ∈ l) ∧
      (e.tags.find? (fun kv => kv.1 == "addr:housename") = none → renamesOf e = []) := by
  obtain ⟨l, hl⟩ := get_previous_names_ok doc
  refine ⟨l, hl, ?_, renamesOf_eq_nil_of_no_housename⟩
  intro kv2 hfind
  exact (get_previous_names_mem hl).mpr
    (List.mem_flatMap.mpr ⟨e, he, renamesOf_of_find hold hfind⟩)

/-- C6 witness: the rename query on the renamed house yields the pair
(Old House, New House). -/
theorem C6_witness :
    ∃ l, get_previous_names docRenamed = .ok l ∧
      [PyVal.str "Old House", PyVal.str "New House"] ∈ l := by
  obtain ⟨l, hl, hsome, _⟩ := @C6_previous_names docRenamed
    ⟨[], [("addr:housename", "New House"), ("old_name", "Old House")]⟩ "Old House"
    (by decide) (by decide)
  exact ⟨l, hl, hsome ("addr:housename", "New House") (by decide)⟩

/-- C7: the dedup/sort normalization is idempotent wherever it succeeds: if
_clean returns a value, applying _clean to that value returns it
unchanged. -/
theorem C7_clean_idempotent {X Y : List Record} (h : _clean X = .ok Y) :
    _clean Y = .ok Y :=
  clean_of_clean h

/-- C7 witness: idempotence evaluated on a small concrete collection. -/
theorem C7_witness :
    _clean [[PyVal.str "b"], [PyVal.str "a"], [PyVal.str "b"]] =
      .ok [[PyVal.str "a"], [PyVal.str "b"]] ∧
    _clean [[PyVal.str "a"], [PyVal.str "b"]] = .ok [[PyVal.str "a"], [PyVal.str "b"]] :=
  ⟨rfl, @C7_clean_idempotent [[PyVal.str "b"], [PyVal.str "a"], [PyVal.str "b"]]
    [[PyVal.str "a"], [PyVal.str "b"]] rfl⟩

/-- C8: with the document model frozen, the two extraction queries are
deterministic, and _clean maps any two collections with the same set of
records (irrespective of order and multiplicity) that both normalize
successfully to the same output sequence. -/
theorem C8_determinism {doc : Document} {proj : Rat → Rat → Coords}
    {keys : List String} {X Y Zx Zy : List Record}
    (hset : X.toFinset = Y.toFinset)
    (hx : _clean X = .ok Zx) (hy : _clean Y = .ok Zy) :
    extract_house_info doc proj keys = extract_house_info doc proj keys ∧
      get_previous_names doc = get_previous_names doc ∧ Zx = Zy := by
  refine ⟨rfl, rfl, clean_ok_unique ?_ hx hy⟩
  intro a
  rw [← List.mem_toFinset, hset, List.mem_toFinset]

/-- C8 witness: two permuted collections with a duplicate normalize to the
same sequence. -/
theorem C8_witness :
    ([[PyVal.str "a"], [PyVal.str "b"]] : List Record).toFinset =
      ([[PyVal.str "b"], [PyVal.str "a"], [PyVal.str "a"]] : List Record).toFinset ∧
    (extract_house_info docScenario projFloor ["addr:postcode"] =
        extract_house_info docScenario projFloor ["addr:postcode"] ∧
      get_previous_names docScenario = get_previous_names docScenario ∧
      ([[PyVal.str "a"], [PyVal.str "b"]] : List Record) =
        [[PyVal.str "a"], [PyVal.str "b"]]) :=
  ⟨by decide, @C8_determinism docScenario projFloor ["addr:postcode"]
    [[PyVal.str "a"], [PyVal.str "b"]] [[PyVal.str "b"], [PyVal.str "a"], [PyVal.str "a"]]
    [[PyVal.str "a"], [PyVal.str "b"]] [[PyVal.str "a"], [PyVal.str "b"]]
    (by decide) rfl rfl⟩

/-- C9: on the two-entity scenario document with requested key
addr:postcode, the extraction yields exactly the Birchwood record with
postcode and centroid (1, 1) and the length-1 Ivy Cottage record, and the
rename query yields exactly (The Croft, Ivy Cottage). -/
theorem C9_scenario :
    extract_house_info docScenario projFloor ["addr:postcode"] =
      .ok [[PyVal.str "Birchwood", PyVal.str "PH20 1AA", PyVal.int 1, PyVal.int 1],
           [PyVal.str "Ivy Cottage"]] ∧
    get_previous_names docScenario = .ok [[PyVal.str "The Croft", PyVal.str "Ivy Cottage"]] :=
  ⟨rfl, rfl⟩

/-- C10: _clean is not total on the records the extractor can build: the
mixed document produces two well-formed records carrying an integer and a
string at the same position, their sort raises a TypeError, and the whole
extraction fails. -/
theorem C10_mixed_types_abort :
    house_records docMixed projFloor ["p"] =
      .ok [[PyVal.str "Same", PyVal.int 0, PyVal.int 0], [PyVal.str "Same", PyVal.str "Z"]] ∧
    _clean [[PyVal.str "Same", PyVal.int 0, PyVal.int 0], [PyVal.str "Same", PyVal.str "Z"]] =
      .error .typeError ∧
    extract_house_info docMixed projFloor ["p"] = .error .typeError :=
  ⟨rfl, rfl, rfl⟩
